import Mathlib

/-!
Verification of the MIDI Note → Program Change event translator
(`MidiNoteToPc::process` in `src/lib.rs`).

The translator receives an ordered queue of MIDI events per processing
block and, per event:
  * `NoteOn { timing, channel, note, .. }`: when `note <= max_note`,
    emits one `MidiProgramChange { timing, channel: ch, program: note }`
    where `ch` is the incoming channel when the output-channel parameter
    is 0 (Auto) and `output_ch - 1` otherwise; the note itself is never
    forwarded.
  * `NoteOff { .. }`: silently consumed.
  * every other event: forwarded unchanged when `pass_through` is set,
    dropped otherwise.
-/

namespace MidiNoteToPc

/-- The MIDI events the plugin handles (`nih_plug::NoteEvent`, restricted
to the variants relevant to a `MidiCCs` configuration).  Numeric fields
are modelled as `Nat`; `velocity` is carried by note events but never
inspected by the translator. -/
inductive NoteEvent where
  | noteOn (timing : Nat) (channel : Nat) (note : Nat) (velocity : Nat)
  | noteOff (timing : Nat) (channel : Nat) (note : Nat) (velocity : Nat)
  | midiProgramChange (timing : Nat) (channel : Nat) (program : Nat)
  | midiCC (timing : Nat) (channel : Nat) (cc : Nat) (value : Nat)
  | midiPitchBend (timing : Nat) (channel : Nat) (value : Nat)
  | midiChannelPressure (timing : Nat) (channel : Nat) (pressure : Nat)
  deriving DecidableEq, Repr

/-- The three plugin parameters read at the top of `process`:
`output_channel` (IntParam, range 0–16; 0 = Auto), `max_note`
(IntParam, range 0–127) and `pass_through` (BoolParam). -/
structure Params where
  output_channel : Nat
  max_note : Nat
  pass_through : Bool
  deriving DecidableEq, Repr

/-- The default parameter values from `MidiNoteToPcParams::default`:
channel 0 (Auto), max note 99, pass-through on. -/
def Params.default : Params :=
  { output_channel := 0, max_note := 99, pass_through := true }

/-- The channel written into an emitted Program Change, from the source:
`if output_ch == 0 { channel } else { output_ch - 1 }`.  The subtraction
is on `u8`, so it is taken mod 2^8 (it is only reached with
`output_ch ≠ 0`, where no wrap occurs). -/
def outputChannel (p : Params) (channel : Nat) : Nat :=
  if p.output_channel = 0 then channel else (p.output_channel + 255) % 256

/-- One iteration of the event loop in `MidiNoteToPc::process`: the list
of events sent to the context for a single input event (zero or one). -/
def processEvent (p : Params) : NoteEvent → List NoteEvent
  | .noteOn timing channel note _velocity =>
      if note ≤ p.max_note then
        [.midiProgramChange timing (outputChannel p channel) note]
      else
        []
  | .noteOff _ _ _ _ => []
  | other => if p.pass_through then [other] else []

/-- The whole `while let Some(event) = context.next_event()` loop:
events are drained in order and everything sent is appended to the
host's output queue in order. -/
def process (p : Params) : List NoteEvent → List NoteEvent
  | [] => []
  | e :: es => processEvent p e ++ process p es

/-- Whether an event is a note event (NoteOn or NoteOff). -/
def isNote : NoteEvent → Bool
  | .noteOn _ _ _ _ => true
  | .noteOff _ _ _ _ => true
  | _ => false

/-- Panic-aware model of the same loop body: the `u8` subtraction
`output_ch - 1` is modelled as a fallible operation that fails (like a
debug-mode overflow panic) when `output_ch = 0`.  `none` means the
block panicked. -/
def sub1Checked (k : Nat) : Option Nat :=
  if k = 0 then none else some (k - 1)

/-- `processEvent` with the checked subtraction. -/
def processEventChecked (p : Params) : NoteEvent → Option (List NoteEvent)
  | .noteOn timing channel note _velocity =>
      if note ≤ p.max_note then
        (if p.output_channel = 0 then some channel
         else sub1Checked p.output_channel).map
          fun ch => [.midiProgramChange timing ch note]
      else
        some []
  | .noteOff _ _ _ _ => some []
  | other => some (if p.pass_through then [other] else [])

/-- `process` with the checked subtraction: fails iff some event's
translation fails. -/
def processChecked (p : Params) : List NoteEvent → Option (List NoteEvent)
  | [] => some []
  | e :: es => do
      let out ← processEventChecked p e
      let rest ← processChecked p es
      pure (out ++ rest)

/-- Erase the velocity of NoteOn events (used to state that the
translator never reads it). -/
def eraseNoteOnVelocity : NoteEvent → NoteEvent
  | .noteOn timing channel note _velocity => .noteOn timing channel note 0
  | e => e

end MidiNoteToPc

namespace MidiNoteToPc

/-- C1: a NoteOn with note `n ≤ max_note` yields exactly one
MidiProgramChange with `program = n`, the same timing, and the channel
chosen by the channel mode; a NoteOn with `n > max_note` yields no
output; and in no case (any `pass_through`) is the NoteOn itself
forwarded. -/
theorem noteOn_direct_mapping (p : Params) (t c n v : Nat) :
    processEvent p (.noteOn t c n v) =
      (if n ≤ p.max_note then
        [.midiProgramChange t (outputChannel p c) n]
      else []) ∧
    NoteEvent.noteOn t c n v ∉ processEvent p (.noteOn t c n v) := by
  constructor
  · rfl
  · simp only [processEvent]
    split
    · simp
    · simp

/-- C4: a NoteOff never produces output, for every note, channel,
timing, velocity and configuration. -/
theorem noteOff_dropped (p : Params) (t c n v : Nat) :
    processEvent p (.noteOff t c n v) = [] := rfl

/-- The wrapped `u8` subtraction `output_ch - 1` agrees with plain
subtraction on the parameter range 1–16. -/
lemma wrap_sub_eq (k : Nat) (h1 : 1 ≤ k) (h2 : k ≤ 16) :
    (k + 255) % 256 = k - 1 := by omega

/-- C2: with the output-channel parameter at 0 (Auto) an emitted
Program Change carries the incoming NoteOn's channel; with the
parameter at `k ∈ [1,16]` (Fixed) it carries `k - 1`, regardless of the
input channel. -/
theorem channel_mode (p : Params) (t c n v : Nat) (hn : n ≤ p.max_note) :
    (p.output_channel = 0 →
      processEvent p (.noteOn t c n v) = [.midiProgramChange t c n]) ∧
    (1 ≤ p.output_channel → p.output_channel ≤ 16 →
      processEvent p (.noteOn t c n v)
        = [.midiProgramChange t (p.output_channel - 1) n]) := by
  constructor
  · intro h0
    simp [processEvent, outputChannel, h0, hn]
  · intro h1 h2
    simp [processEvent, outputChannel, hn, Nat.ne_of_gt h1,
      wrap_sub_eq p.output_channel h1 h2]

/-- Witness for C2 at a concrete fixed channel (parameter 3 emits on
internal channel 2) and at Auto. -/
theorem channel_mode_witness :
    processEvent ⟨3, 99, true⟩ (.noteOn 0 7 60 100)
        = [.midiProgramChange 0 2 60] ∧
    processEvent ⟨0, 99, true⟩ (.noteOn 0 7 60 100)
        = [.midiProgramChange 0 7 60] :=
  ⟨(channel_mode ⟨3, 99, true⟩ 0 7 60 100 (by decide)).2 (by decide) (by decide),
   (channel_mode ⟨0, 99, true⟩ 0 7 60 100 (by decide)).1 rfl⟩

/-- C3: any event that is neither NoteOn nor NoteOff is forwarded
unchanged when `pass_through` is true and dropped when it is false. -/
theorem pass_through_policy (p : Params) (e : NoteEvent)
    (h : isNote e = false) :
    processEvent p e = if p.pass_through then [e] else [] := by
  cases e with
  | noteOn t c n v => simp [isNote] at h
  | noteOff t c n v => simp [isNote] at h
  | midiProgramChange t c g => rfl
  | midiCC t c num val => rfl
  | midiPitchBend t c val => rfl
  | midiChannelPressure t c pr => rfl

/-- Witness for C3: a CC is forwarded verbatim with pass-through on and
dropped with pass-through off. -/
theorem pass_through_policy_witness :
    isNote (NoteEvent.midiCC 5 2 1 64) = false ∧
    processEvent ⟨0, 99, true⟩ (.midiCC 5 2 1 64) = [.midiCC 5 2 1 64] ∧
    processEvent ⟨0, 99, false⟩ (.midiCC 5 2 1 64) = [] :=
  ⟨rfl,
   (pass_through_policy ⟨0, 99, true⟩ (.midiCC 5 2 1 64) rfl).trans rfl,
   (pass_through_policy ⟨0, 99, false⟩ (.midiCC 5 2 1 64) rfl).trans rfl⟩

/-- C5: `process` is exactly the in-order concatenation of the
per-event translations, and each input event yields at most one output
event — so outputs keep the relative order of their generating inputs,
with no reordering or batching. -/
theorem order_and_multiplicity (p : Params) (es : List NoteEvent) :
    process p es = (es.map (processEvent p)).flatten ∧
    ∀ e : NoteEvent, (processEvent p e).length ≤ 1 := by
  constructor
  · induction es with
    | nil => rfl
    | cons e es ih => simp [process, ih]
  · intro e
    cases e <;> simp [processEvent] <;> split <;> simp

/-- C6: the concrete scenario with the default configuration
(max_note 99, Auto channel, pass-through on): a convertible NoteOn, a
CC, an out-of-range NoteOn and a NoteOff produce exactly the Program
Change and the forwarded CC. -/
theorem concrete_scenario :
    process Params.default
      [.noteOn 0 2 60 100, .midiCC 5 2 1 64, .noteOn 10 2 120 100,
       .noteOff 20 2 60 0]
      = [.midiProgramChange 0 2 60, .midiCC 5 2 1 64] := rfl

/-- With the output-channel parameter in range, the per-event
translation never reaches the `u8` subtraction with a zero operand. -/
lemma processEventChecked_eq (p : Params) (e : NoteEvent)
    (hch : p.output_channel ≤ 16) :
    processEventChecked p e = some (processEvent p e) := by
  cases e with
  | noteOn t c n v =>
    by_cases hn : n ≤ p.max_note
    · by_cases h0 : p.output_channel = 0
      · simp [processEventChecked, processEvent, outputChannel, hn, h0]
      · have h1 : 1 ≤ p.output_channel := Nat.one_le_iff_ne_zero.mpr h0
        simp [processEventChecked, processEvent, outputChannel, sub1Checked,
          hn, h0, wrap_sub_eq p.output_channel h1 hch]
    · simp [processEventChecked, processEvent, hn]
  | noteOff t c n v => rfl
  | midiProgramChange t c g => rfl
  | midiCC t c num val => rfl
  | midiPitchBend t c val => rfl
  | midiChannelPressure t c pr => rfl

/-- C7: for every configuration with the output-channel parameter in
[0,16] and `max_note` in [0,127], the per-block translation is total:
the panic-aware model never fails (the subtraction `output_ch - 1` is
only evaluated when `output_ch ≥ 1`) and agrees with `process`. -/
theorem process_total_no_panic (p : Params) (es : List NoteEvent)
    (hch : p.output_channel ≤ 16) (_hmax : p.max_note ≤ 127) :
    processChecked p es = some (process p es) := by
  induction es with
  | nil => rfl
  | cons e es ih =>
    simp [processChecked, process, processEventChecked_eq p e hch, ih]

/-- Witness for C7 at a concrete configuration and block. -/
theorem process_total_no_panic_witness :
    (3 : Nat) ≤ 16 ∧ (99 : Nat) ≤ 127 ∧
    processChecked ⟨3, 99, true⟩ [.noteOn 0 2 60 100, .noteOff 1 2 60 0]
      = some [.midiProgramChange 0 2 60] :=
  ⟨by decide, by decide,
   process_total_no_panic ⟨3, 99, true⟩
     [.noteOn 0 2 60 100, .noteOff 1 2 60 0] (by decide) (by decide)⟩

/-- C8: an incoming MidiProgramChange falls into the catch-all arm: it
is forwarded unchanged when `pass_through` is true and dropped when
false — exactly the treatment of any other non-note event. -/
theorem incoming_program_change (p : Params) (t c g : Nat) :
    processEvent p (.midiProgramChange t c g) =
      if p.pass_through then [.midiProgramChange t c g] else [] := rfl

/-- Erasing NoteOn velocity does not change an event's translation. -/
lemma processEvent_eraseVel (p : Params) (e : NoteEvent) :
    processEvent p (eraseNoteOnVelocity e) = processEvent p e := by
  cases e <;> rfl

/-- C9: the output is independent of NoteOn velocity — inputs equal up
to NoteOn velocities translate identically — and a NoteOn with
velocity 0 is still converted when its note is in range. -/
theorem velocity_noninterference (p : Params) :
    (∀ es es' : List NoteEvent,
      es.map eraseNoteOnVelocity = es'.map eraseNoteOnVelocity →
      process p es = process p es') ∧
    (∀ t c n : Nat, n ≤ p.max_note →
      processEvent p (.noteOn t c n 0)
        = [.midiProgramChange t (outputChannel p c) n]) := by
  constructor
  · intro es
    induction es with
    | nil =>
      intro es' h
      cases es' with
      | nil => rfl
      | cons e' es' => simp at h
    | cons e es ih =>
      intro es' h
      cases es' with
      | nil => simp at h
      | cons e' es' =>
        simp only [List.map_cons, List.cons.injEq] at h
        have he : processEvent p e = processEvent p e' := by
          rw [← processEvent_eraseVel p e, h.1, processEvent_eraseVel]
        simp [process, he, ih es' h.2]
  · intro t c n hn
    simp [processEvent, hn]

/-- Witness for C9: two one-event blocks differing only in NoteOn
velocity, and a velocity-0 NoteOn, at the default configuration. -/
theorem velocity_noninterference_witness :
    process Params.default [.noteOn 0 2 60 100]
      = process Params.default [.noteOn 0 2 60 0] ∧
    processEvent Params.default (.noteOn 3 2 60 0)
      = [.midiProgramChange 3 (outputChannel Params.default 2) 60] :=
  ⟨(velocity_noninterference Params.default).1
      [.noteOn 0 2 60 100] [.noteOn 0 2 60 0] rfl,
   (velocity_noninterference Params.default).2 3 2 60 (by decide)⟩

/-- C10: no output event is a NoteOn or NoteOff; every output event is
either a MidiProgramChange or a non-note input event forwarded
verbatim. -/
theorem output_kind_invariant (p : Params) (es : List NoteEvent)
    (e : NoteEvent) (h : e ∈ process p es) :
    isNote e = false ∧
    ((∃ t c g, e = NoteEvent.midiProgramChange t c g) ∨ e ∈ es) := by
  induction es with
  | nil => simp [process] at h
  | cons a es ih =>
    rw [process, List.mem_append] at h
    rcases h with h | h
    · cases a with
      | noteOn t c n v =>
        simp only [processEvent] at h
        split at h
        · rcases List.mem_singleton.mp h with rfl
          exact ⟨rfl, Or.inl ⟨t, outputChannel p c, n, rfl⟩⟩
        · simp at h
      | noteOff t c n v => simp [processEvent] at h
      | midiProgramChange t c g =>
        simp only [processEvent] at h
        split at h
        · rcases List.mem_singleton.mp h with rfl
          exact ⟨rfl, Or.inl ⟨t, c, g, rfl⟩⟩
        · simp at h
      | midiCC t c num val =>
        simp only [processEvent] at h
        split at h
        · rcases List.mem_singleton.mp h with rfl
          exact ⟨rfl, Or.inr (List.mem_cons_self _ _)⟩
        · simp at h
      | midiPitchBend t c val =>
        simp only [processEvent] at h
        split at h
        · rcases List.mem_singleton.mp h with rfl
          exact ⟨rfl, Or.inr (List.mem_cons_self _ _)⟩
        · simp at h
      | midiChannelPressure t c pr =>
        simp only [processEvent] at h
        split at h
        · rcases List.mem_singleton.mp h with rfl
          exact ⟨rfl, Or.inr (List.mem_cons_self _ _)⟩
        · simp at h
    · obtain ⟨h1, h2⟩ := ih h
      exact ⟨h1, h2.imp id (List.mem_cons_of_mem a)⟩

/-- Witness for C10 on a concrete block containing a NoteOn and a CC. -/
theorem output_kind_invariant_witness :
    (NoteEvent.midiCC 5 2 1 64
        ∈ process Params.default [.noteOn 0 2 60 100, .midiCC 5 2 1 64]) ∧
    (isNote (NoteEvent.midiCC 5 2 1 64) = false ∧
      ((∃ t c g, NoteEvent.midiCC 5 2 1 64
          = NoteEvent.midiProgramChange t c g) ∨
        NoteEvent.midiCC 5 2 1 64
          ∈ [NoteEvent.noteOn 0 2 60 100, NoteEvent.midiCC 5 2 1 64])) :=
  ⟨by decide,
   output_kind_invariant Params.default
     [.noteOn 0 2 60 100, .midiCC 5 2 1 64]
     (NoteEvent.midiCC 5 2 1 64) (by decide)⟩

end MidiNoteToPc
